import Mathlib

set_option maxRecDepth 100000

/-!
# Verification of the receipt parsing core of `receipt-ocr-service`

Shallow embedding of `parseReceiptData`, `categorizeItem` and the regex
patterns of `src/main.go` (the Go OCR receipt service).  The Go `regexp`
package guarantees leftmost-first ("Perl style") matching, which we model
with a small CPS backtracking engine over the concrete patterns used by
the program.  Monetary amounts (price and total tokens, of shape
`\d+[.,]\d{2}`) are modelled exactly in cents, on which the comparisons
the program performs (`== 0`, `> 10.0`) are exact; the `ErrRange` check
of `strconv.ParseFloat` on those tokens is modelled by `priceInRange`.
The quantity token of the decimal item branch has shape `\d+[.,]?\d*`
and passes through `int(strconv.ParseFloat(...))`, which is modelled
exactly including the round-to-nearest-even `float64` conversion
(`intOfParseFloat`); `strconv.Atoi` with its ignored range error
saturates at `math.MaxInt64` (`atoiSat`).  Go's `(?i)` uses
`unicode.SimpleFold` orbits; among the letters of the total keywords the
only orbit with a non-ASCII member is that of `s`, which also contains
`ſ` (U+017F), and `ciChr` folds accordingly.
-/

namespace ReceiptOCR

/-- Strings are handled as lists of characters. -/
abbrev Str := List Char

/-- Capture groups collected during a regex match, in group order. -/
abbrev Caps := List Str

/-- Regular expressions, restricted to the constructs appearing in the six
patterns compiled by `parseReceiptData`: character classes, concatenation,
left-preferring alternation, starred character classes and capture groups.
Every star in the source patterns has a single character class as its body,
so `star` only ranges over classes. -/
inductive RE where
  | eps : RE
  | cls (p : Char → Bool) : RE
  | cat (a b : RE) : RE
  | alt (a b : RE) : RE
  | star (p : Char → Bool) : RE
  | group (a : RE) : RE

/-- Greedy matcher for a starred character class in continuation style:
consume as many `p`-characters as possible, backtracking one character at a
time when the continuation fails.  This is exactly the preference order of
Go's leftmost-first semantics. -/
def starM (p : Char → Bool) (k : Str → Caps → Option Caps) : Str → Caps → Option Caps
  | [], caps => k [] caps
  | c :: rest, caps =>
    if p c then
      match starM p k rest caps with
      | some r => some r
      | none => k (c :: rest) caps
    else k (c :: rest) caps

/-- Backtracking matcher: `mtch r s caps k` tries to match `r` against a
prefix of `s`, calling the continuation `k` with the remaining suffix and
the extended capture list, exploring alternatives in leftmost-first order.
A capture group records the prefix of `s` it consumed. -/
def mtch : RE → Str → Caps → (Str → Caps → Option Caps) → Option Caps
  | .eps, s, caps, k => k s caps
  | .cls p, s, caps, k =>
    match s with
    | [] => none
    | c :: rest => if p c then k rest caps else none
  | .cat a b, s, caps, k => mtch a s caps (fun s' caps' => mtch b s' caps' k)
  | .alt a b, s, caps, k =>
    match mtch a s caps k with
    | some r => some r
    | none => mtch b s caps k
  | .star p, s, caps, k => starM p k s caps
  | .group a, s, caps, k =>
    mtch a s caps (fun s' caps' => k s' (caps' ++ [s.take (s.length - s'.length)]))

/-- Match `r` at the start of `s`, returning the capture groups of the
first match in backtracking order (Go `FindStringSubmatch` at one
position). -/
def findAt (r : RE) (s : Str) : Option Caps :=
  mtch r s [] (fun _ caps => some caps)

/-- Leftmost search: try each position left to right (Go
`FindStringSubmatch`). -/
def find (r : RE) : Str → Option Caps
  | [] => findAt r []
  | c :: rest =>
    match findAt r (c :: rest) with
    | some caps => some caps
    | none => find r rest

/-- Whole-string anchored match, for the `^...$` pattern. -/
def findAnchored (r : RE) (s : Str) : Option Caps :=
  mtch r s [] (fun s' caps => if s' = [] then some caps else none)

/-- ASCII decimal digit, Go's `\d`. -/
def isDigitGo (c : Char) : Bool := '0' ≤ c && c ≤ '9'

/-- Go's `\s`: `[\t\n\f\r ]`. -/
def isSpaceGo (c : Char) : Bool :=
  c = ' ' || c = '\t' || c = '\n' || c = '\x0c' || c = '\r'

/-- The class `[\s:]` of the total pattern. -/
def isSpaceColon (c : Char) : Bool := isSpaceGo c || c = ':'

/-- The class `[.,]` of decimal separators. -/
def isDotComma (c : Char) : Bool := c = '.' || c = ','

/-- A single literal character. -/
def chr (c : Char) : RE := .cls (fun x => x = c)

/-- A literal string. -/
def lit : Str → RE
  | [] => .eps
  | c :: cs => .cat (chr c) (lit cs)

/-- One or more characters of a class, Go's `p+`. -/
def plus (p : Char → Bool) : RE := .cat (.cls p) (.star p)

/-- An optional character class, Go's greedy `p?`. -/
def optCls (p : Char → Bool) : RE := .alt (.cls p) .eps

/-- A case-insensitive literal character for the `(?i)` total pattern:
a character matches when it lies in the same `unicode.SimpleFold` orbit
as the (lower-case ASCII) keyword letter `c`.  For every keyword letter
except `s` the orbit is exactly the upper/lower ASCII pair; the orbit of
`s` additionally contains `ſ` (U+017F, LATIN SMALL LETTER LONG S). -/
def ciChr (c : Char) : RE :=
  if c = 's' then .cls (fun x => x = 's' || x = 'S' || x = 'ſ')
  else .cls (fun x => x.toLower = c)

/-- A case-insensitive literal string. -/
def ciLit : Str → RE
  | [] => .eps
  | c :: cs => .cat (ciChr c) (ciLit cs)

/-! ## The six compiled patterns of `parseReceiptData` -/

/-- Body of `\d+[.,]\d{2}`, a price-shaped numeral. -/
def priceBody : RE :=
  .cat (plus isDigitGo) (.cat (.cls isDotComma) (.cat (.cls isDigitGo) (.cls isDigitGo)))

/-- `datePattern = (\d{4}-\d{2}-\d{2})`. -/
def dateRE : RE :=
  .group (.cat (.cls isDigitGo) (.cat (.cls isDigitGo) (.cat (.cls isDigitGo)
    (.cat (.cls isDigitGo) (.cat (chr '-') (.cat (.cls isDigitGo) (.cat (.cls isDigitGo)
    (.cat (chr '-') (.cat (.cls isDigitGo) (.cls isDigitGo))))))))))

/-- The keyword alternation of `totalPattern`, tried left to right:
`suma|total|razem|suma plc|suma pln`, case-insensitively. -/
def totalKeywordsRE : RE :=
  .alt (ciLit "suma".data) (.alt (ciLit "total".data) (.alt (ciLit "razem".data)
    (.alt (ciLit "suma plc".data) (ciLit "suma pln".data))))

/-- `totalPattern = (?i)(suma|total|razem|suma plc|suma pln)[\s:]*(\d+[.,]\d{2})`. -/
def totalRE : RE :=
  .cat (.group totalKeywordsRE) (.cat (.star isSpaceColon) (.group priceBody))

/-- `standaloneTotalPattern = ^(\d+[.,]\d{2})$`, used anchored. -/
def standaloneRE : RE := .group priceBody

/-- The common tail `\s*<sep>(\d+[.,]\d{2})\s*(\d+[.,]\d{2})C?` of the three
item patterns, with separator character `sep`. -/
def itemTail (sep : Char) : RE :=
  .cat (.star isSpaceGo) (.cat (chr sep) (.cat (.group priceBody)
    (.cat (.star isSpaceGo) (.cat (.group priceBody) (optCls (fun c => c = 'C'))))))

/-- `itemPattern = (\d+[.,]?\d*)\s*x(\d+[.,]\d{2})\s*(\d+[.,]\d{2})C?`. -/
def itemRE : RE :=
  .cat (.group (.cat (plus isDigitGo) (.cat (optCls isDotComma) (.star isDigitGo)))) (itemTail 'x')

/-- `simpleItemPattern = (\d+)\s*x(\d+[.,]\d{2})\s*(\d+[.,]\d{2})C?`. -/
def simpleItemRE : RE := .cat (.group (plus isDigitGo)) (itemTail 'x')

/-- `unicodeItemPattern = (\d+)\s*×(\d+[.,]\d{2})\s*(\d+[.,]\d{2})C?`. -/
def unicodeItemRE : RE := .cat (.group (plus isDigitGo)) (itemTail '×')

/-! ## String helpers mirroring the `strings` / `strconv` calls -/

/-- Boolean prefix test. -/
def isPrefixB : Str → Str → Bool
  | [], _ => true
  | _ :: _, [] => false
  | a :: as_, b :: bs => a = b && isPrefixB as_ bs

/-- `strings.Contains hay needle` (substring occurrence). -/
def containsSub (needle : Str) : Str → Bool
  | [] => needle.isEmpty
  | c :: rest => isPrefixB needle (c :: rest) || containsSub needle rest

/-- `strings.Contains` on `String`s. -/
def strContains (hay needle : String) : Bool := containsSub needle.data hay.data

/-- `strings.ToLower` restricted to the alphabets the program compares:
ASCII letters and the Polish capitals appearing in the category keywords. -/
def lowerChar (c : Char) : Char :=
  if c = 'Ż' then 'ż' else if c = 'Ź' then 'ź' else if c = 'Ć' then 'ć'
  else if c = 'Ą' then 'ą' else if c = 'Ś' then 'ś' else if c = 'Ę' then 'ę'
  else if c = 'Ł' then 'ł' else if c = 'Ó' then 'ó' else if c = 'Ń' then 'ń'
  else c.toLower

/-- `strings.ToLower` on `String`s. -/
def lowerStr (s : String) : String := String.mk (s.data.map lowerChar)

/-- `strings.Replace s "," "." -1`. -/
def commaToDot (s : Str) : Str := s.map (fun c => if c = ',' then '.' else c)

/-- `strings.Split s "\n"`. -/
def splitNL : Str → List Str
  | [] => [[]]
  | c :: rest =>
    if c = '\n' then [] :: splitNL rest
    else
      match splitNL rest with
      | g :: gs => (c :: g) :: gs
      | [] => [[c]]

/-- Numeric value of a digit string (`strconv.Atoi` on `\d+` tokens). -/
def digitsToNat (s : Str) : Nat := s.foldl (fun n c => 10 * n + (c.toNat - '0'.toNat)) 0

/-- `strconv.ParseFloat` on a price-shaped token `\d+[.,]\d{2}` (after the
comma-to-dot replacement), modelled exactly in cents: the `float64` the Go
code stores is the rounding of `parseCents s / 100`.  All comparisons the
program performs on these values (`== 0`, `> 10.0`) are exact at this
precision, so the cent model is faithful. -/
def parseCents (s : Str) : Nat := digitsToNat (s.filter isDigitGo)

/-- `strconv.Atoi` with the error ignored, as the integer-quantity
branches do (`quantity, _ := strconv.Atoi(...)`): on overflow Go's
`ParseInt` returns `math.MaxInt64` together with `ErrRange`, and the code
keeps the saturated value. -/
def atoiSat (s : Str) : Nat := min (digitsToNat s) 9223372036854775807

/-- The overflow threshold of `strconv.ParseFloat` on nonnegative decimal
input, in cents: a value `v` rounds to `+Inf` (and sets `ErrRange`)
exactly when `v ≥ 2^1024 - 2^970`, the rounding midpoint above
`math.MaxFloat64`. -/
def overflowCents : Nat := 100 * (2 ^ 1024 - 2 ^ 970)

/-- `err == nil` of `strconv.ParseFloat` on a price-shaped token given in
cents (underflow cannot occur at two decimal digits). -/
def priceInRange (cents : Nat) : Bool := cents < overflowCents

/-- The number of fraction digits of a decimal token `\d+[.,]?\d*` after
comma replacement. -/
def fracLen (s : Str) : Nat := ((s.dropWhile isDigitGo).drop 1).length

/-- Floor base-2 logarithm by fuelled halving: structural recursion that
the kernel can evaluate (`Nat.log2` itself is defined by well-founded
recursion). -/
def log2Fuel : Nat → Nat → Nat
  | 0, _ => 0
  | fuel + 1, n => if n < 2 then 0 else log2Fuel fuel (n / 2) + 1

/-- `⌊log₂ n⌋` for `n ≥ 1` (0 at 0). -/
def log2N (n : Nat) : Nat := log2Fuel n n

/-- Is `2^t ≤ n / 10^k`?  (Exact comparison in integers.) -/
def pow2Le (t : ℤ) (n k : Nat) : Bool :=
  if 0 ≤ t then 2 ^ t.toNat * 10 ^ k ≤ n else 10 ^ k ≤ n * 2 ^ (-t).toNat

/-- `⌊log₂ (n / 10^k)⌋` for `n ≥ 1`: the bit-length estimate is exact or
one too large. -/
def floorLog2 (n k : Nat) : ℤ :=
  let d : ℤ := (log2N n : ℤ) - (log2N (10 ^ k) : ℤ)
  if pow2Le d n k then d else d - 1

/-- Round the fraction `num / den` to the nearest integer, ties to even. -/
def roundDiv (num den : Nat) : Nat :=
  if 2 * (num % den) < den then num / den
  else if den < 2 * (num % den) then num / den + 1
  else if (num / den) % 2 = 0 then num / den else num / den + 1

/-- Round `n / 10^k` to the nearest multiple of `2^g`, ties to even,
returning the multiplier. -/
def roundMant (n k : Nat) (g : ℤ) : Nat :=
  if 0 ≤ g then roundDiv n (10 ^ k * 2 ^ g.toNat)
  else roundDiv (n * 2 ^ (-g).toNat) (10 ^ k)

/-- The `float64` grid exponent of `n / 10^k`: `e - 52` on the normal
range, `-1074` on the subnormal range. -/
def floatExp (n k : Nat) : ℤ :=
  if -1022 ≤ floorLog2 n k then floorLog2 n k - 52 else -1074

/-- Truncation toward zero of the nonnegative value `m * 2^g`. -/
def truncOfFloat (m : Nat) (g : ℤ) : Nat :=
  if 0 ≤ g then m * 2 ^ g.toNat else m / 2 ^ (-g).toNat

/-- `int(strconv.ParseFloat ...)` on the nonnegative decimal value
`n / 10^k`: the value is rounded to the nearest `float64` — grid
`2^(e-52)` for exponent `e ≥ -1022`, subnormal grid `2^-1074` below, ties
to even, `+Inf` from `2^1024 - 2^970` up — and truncated toward zero.
Where the Go conversion is implementation-defined (the value rounds to
`+Inf`, or the truncation exceeds the `int64` range) the model returns 0;
no claim depends on those inputs. -/
def intOfDecimal (n k : Nat) : Nat :=
  if n = 0 then 0
  else if 2 ^ ((1024 - floatExp n k).toNat) ≤ roundMant n k (floatExp n k) then 0
  else if 9223372036854775808 ≤ truncOfFloat (roundMant n k (floatExp n k)) (floatExp n k) then 0
  else truncOfFloat (roundMant n k (floatExp n k)) (floatExp n k)

/-- `int(strconv.ParseFloat s)` on a nonnegative decimal token
`\d+[.,]?\d*` (after comma replacement). -/
def intOfParseFloat (s : Str) : Nat :=
  intOfDecimal (digitsToNat (s.filter isDigitGo)) (fracLen s)

/-! ## Data model -/

/-- Go `ReceiptItem`; `price` is the exact value in cents of the
`float64` the Go code stores. -/
structure ReceiptItem where
  name : String
  price : Nat
  quantity : Nat
  category : String
deriving DecidableEq, Repr

/-- Go `Receipt`; `totalAmount` is the exact value in cents of the
`float64` the Go code stores (`0` means "not found", as in the source). -/
structure Receipt where
  merchant : String
  date : String
  totalAmount : Nat
  items : List ReceiptItem
  rawText : List String
deriving DecidableEq, Repr

/-- The category-to-keywords table of `categorizeItem`, in source literal
order.  The Go code iterates this table as a `map`, whose iteration order
is unspecified; functions below therefore take the order as a parameter. -/
def canonicalCats : List (String × List String) :=
  [("Meat", ["mięso", "wiep", "woł", "drób", "kurczak", "indyk", "szynka", "kiełbasa", "parówki"]),
   ("Dairy", ["mleko", "ser", "jogurt", "śmietana", "masło", "twaróg", "kefir"]),
   ("Vegetables", ["kapusta", "marchew", "cebula", "ziemniak", "pomidor", "ogórek", "sałata", "szczypiorek"]),
   ("Fruits", ["jabłko", "banan", "gruszka", "śliwka", "winogrono", "truskawka", "malina"]),
   ("Bakery", ["chleb", "bułka", "rogal", "drożdżówka", "ciasto"]),
   ("Beverages", ["woda", "sok", "napój", "kawa", "herbata", "piwo"]),
   ("Groceries", ["ryż", "makaron", "mąka", "cukier", "sól", "olej", "przyprawy", "bulion", "koncentrat"]),
   ("Household", ["papier", "ręcznik", "mydło", "proszek", "płyn"])]

/-- `categorizeItem`, parameterized by the iteration order of the map:
lower-case the name, return the first category in `cats` one of whose
keywords occurs in the name, else `"Other"`. -/
def categorizeItemWith (cats : List (String × List String)) (name : String) : String :=
  let n := lowerStr name
  match cats.find? (fun e => e.2.any (fun kw => strContains n kw)) with
  | some e => e.1
  | none => "Other"

/-- `categorizeItem` at the source-literal table order. -/
def categorizeItem (name : String) : String := categorizeItemWith canonicalCats name

/-! ## `parseReceiptData` -/

/-- Does a line contain one of the two business-suffix markers of the
merchant loop? -/
def hasMarker (l : String) : Bool :=
  strContains l "sp. z o.o." || strContains l "sp. z o. o."

/-- The merchant loop of `parseReceiptData` (run only when the first block
has more than five lines): return the first line containing a
business-suffix marker, or the line at index 5 if none was found earlier. -/
def merchantLoop : List String → Nat → String
  | [], _ => ""
  | l :: rest, i =>
    if hasMarker l then l
    else if i = 5 then l
    else merchantLoop rest (i + 1)

/-- Merchant extraction of `parseReceiptData` (lines 294-312): split the
first text block on newlines; with more than five lines run the marker
loop, otherwise take the first line. -/
def extractMerchant (texts : List String) : String :=
  match texts with
  | [] => ""
  | t0 :: _ =>
    let lines := (splitNL t0.data).map String.mk
    if 5 < lines.length then merchantLoop lines 0
    else lines.headD ""

/-- The inner scan of the item-name loop, carrying the previous element:
return the element preceding the first occurrence of `line` at positive
index. -/
def lookupFrom (prev line : String) : List String → String
  | [] => "Unknown Item"
  | t :: rest => if t = line then prev else lookupFrom t line rest

/-- The item-name loop of `parseReceiptData` (`for i, t := range texts`
with guard `t == line && i > 0`): the default is `"Unknown Item"`. -/
def lookupName (texts : List String) (line : String) : String :=
  match texts with
  | [] => "Unknown Item"
  | t0 :: rest => lookupFrom t0 line rest

/-- Does the lower-cased resolved name contain one of the two keywords
checked by the decimal-quantity item branch (line 372)? -/
def nameIsTotalish2 (name : String) : Bool :=
  strContains (lowerStr name) "suma" || strContains (lowerStr name) "total"

/-- Does the lower-cased resolved name contain one of the three keywords
checked by the integer and unicode item branches (lines 397, 423)? -/
def nameIsTotalish3 (name : String) : Bool :=
  nameIsTotalish2 name || strContains (lowerStr name) "razem"

/-- Date extraction of the per-line loop (line 331). -/
def stepDate (r : Receipt) (ls : Str) : Receipt :=
  match find dateRE ls with
  | some caps => if r.date = "" then { r with date := String.mk (caps.headD []) } else r
  | none => r

/-- Keyword total, tier 1 (lines 336-342); the amount is stored only when
`strconv.ParseFloat` returns `err == nil`, i.e. the value is in the
`float64` range. -/
def stepTotal (r : Receipt) (ls : Str) : Receipt :=
  match find totalRE ls with
  | some caps =>
    if r.totalAmount = 0 then
      if priceInRange (parseCents (commaToDot (caps.getD 1 []))) then
        { r with totalAmount := parseCents (commaToDot (caps.getD 1 [])) }
      else r
    else r
  | none => r

/-- Standalone total, tier 2 (lines 345-354); the guard is
`err == nil && sum > 10.0`. -/
def stepStandalone (r : Receipt) (ls : Str) : Receipt :=
  if r.totalAmount = 0 then
    match findAnchored standaloneRE ls with
    | some caps =>
      if priceInRange (parseCents (commaToDot (caps.headD []))) then
        if 1000 < parseCents (commaToDot (caps.headD [])) then
          { r with totalAmount := parseCents (commaToDot (caps.headD [])) }
        else r
      else r
    | none => r
  else r

/-- Append one recovered item, running the category classifier. -/
def appendItem (cats : List (String × List String)) (r : Receipt)
    (name : String) (price : Nat) (qty : Nat) : Receipt :=
  { r with items := r.items ++
    [{ name := name, price := price, quantity := qty,
       category := categorizeItemWith cats name }] }

/-- Item extraction, first matching pattern wins (lines 357-435).  Each
branch appends only under `err == nil && <name filter>`, where `err` is
the price `ParseFloat` error (range check); the decimal branch converts
its quantity with `int(ParseFloat(...))`, the other two with `Atoi`. -/
def stepItems (cats : List (String × List String)) (texts : List String)
    (line : String) (r : Receipt) : Receipt :=
  match find itemRE line.data with
  | some caps =>
    if priceInRange (parseCents (commaToDot (caps.getD 2 []))) then
      if nameIsTotalish2 (lookupName texts line) then r
      else appendItem cats r (lookupName texts line) (parseCents (commaToDot (caps.getD 2 [])))
        (intOfParseFloat (commaToDot (caps.getD 0 [])))
    else r
  | none =>
    match find simpleItemRE line.data with
    | some caps =>
      if priceInRange (parseCents (commaToDot (caps.getD 2 []))) then
        if nameIsTotalish3 (lookupName texts line) then r
        else appendItem cats r (lookupName texts line) (parseCents (commaToDot (caps.getD 2 [])))
          (atoiSat (caps.getD 0 []))
      else r
    | none =>
      match find unicodeItemRE line.data with
      | some caps =>
        if priceInRange (parseCents (commaToDot (caps.getD 2 []))) then
          if nameIsTotalish3 (lookupName texts line) then r
          else appendItem cats r (lookupName texts line) (parseCents (commaToDot (caps.getD 2 [])))
            (atoiSat (caps.getD 0 []))
        else r
      | none => r

/-- One iteration of the per-line loop of `parseReceiptData` (lines
329-436): date, keyword total, standalone total, then the first-match-wins
item pattern chain. -/
def processLine (cats : List (String × List String)) (texts : List String)
    (r : Receipt) (line : String) : Receipt :=
  stepItems cats texts line
    (stepStandalone (stepTotal (stepDate r line.data) line.data) line.data)

/-- The receipt as initialized by `parseReceiptData` before the per-line
loop: raw text and merchant set, all other fields at their zero values. -/
def initReceipt (texts : List String) : Receipt :=
  { merchant := extractMerchant texts, date := "", totalAmount := 0,
    items := [], rawText := texts }

/-- `parseReceiptData` with the category-map iteration order as a
parameter: initialize the receipt with raw text and merchant, then fold
the per-line loop over the corpus. -/
def parseWith (cats : List (String × List String)) (texts : List String) : Receipt :=
  texts.foldl (processLine cats texts) (initReceipt texts)

/-- The receipt state after the per-line loop has processed the first `k`
lines of the corpus. -/
def scanState (cats : List (String × List String)) (texts : List String) (k : Nat) : Receipt :=
  (texts.take k).foldl (processLine cats texts) (initReceipt texts)

/-- `parseReceiptData`: the Go function returns the receipt paired with a
`nil` error on every path.  The category table is iterated in source
literal order here; order dependence is examined separately. -/
def parseReceiptData (texts : List String) : Receipt × Option String :=
  (parseWith canonicalCats texts, none)

/-- Does a line qualify for the tier-2 standalone-total fallback: the
whole line is one `\d+[.,]\d{2}` numeral, in `float64` range, of value
above the 10.0 threshold? -/
def standaloneQualifies (line : String) : Bool :=
  match findAnchored standaloneRE line.data with
  | some caps =>
    if priceInRange (parseCents (commaToDot (caps.headD []))) then
      if 1000 < parseCents (commaToDot (caps.headD [])) then true else false
    else false
  | none => false

/-- The ASCII-for-unicode substitution `× ↦ x` of claim C6. -/
def subX (line : String) : String :=
  String.mk (line.data.map (fun c => if c = '×' then 'x' else c))

/-- The category table with `"Bakery"` moved to the front: a permutation
of `canonicalCats`, i.e. a possible iteration order of the same Go map. -/
def bakeryFirstCats : List (String × List String) :=
  [("Bakery", ["chleb", "bułka", "rogal", "drożdżówka", "ciasto"]),
   ("Meat", ["mięso", "wiep", "woł", "drób", "kurczak", "indyk", "szynka", "kiełbasa", "parówki"]),
   ("Dairy", ["mleko", "ser", "jogurt", "śmietana", "masło", "twaróg", "kefir"]),
   ("Vegetables", ["kapusta", "marchew", "cebula", "ziemniak", "pomidor", "ogórek", "sałata", "szczypiorek"]),
   ("Fruits", ["jabłko", "banan", "gruszka", "śliwka", "winogrono", "truskawka", "malina"]),
   ("Beverages", ["woda", "sok", "napój", "kawa", "herbata", "piwo"]),
   ("Groceries", ["ryż", "makaron", "mąka", "cukier", "sól", "olej", "przyprawy", "bulion", "koncentrat"]),
   ("Household", ["papier", "ręcznik", "mydło", "proszek", "płyn"])]

/-- A receipt with the items' category fields blanked, used to state which
parts of the output are independent of the category-map iteration order. -/
def eraseCat (r : Receipt) : Receipt :=
  { r with items := r.items.map (fun it => { it with category := "" }) }

/-- A receipt with the items' category fields recomputed from their names
under a given iteration order. -/
def recat (cats : List (String × List String)) (r : Receipt) : Receipt :=
  { r with items := r.items.map (fun it => { it with category := categorizeItemWith cats it.name }) }

/-- Standard language semantics of the regex fragment: `Sem r w` holds
when `r` matches exactly the word `w`. -/
inductive Sem : RE → Str → Prop where
  | eps : Sem .eps []
  | cls {p : Char → Bool} {c : Char} : p c = true → Sem (.cls p) [c]
  | cat {a b : RE} {u v : Str} : Sem a u → Sem b v → Sem (.cat a b) (u ++ v)
  | altL {a b : RE} {u : Str} : Sem a u → Sem (.alt a b) u
  | altR {a b : RE} {u : Str} : Sem b u → Sem (.alt a b) u
  | starNil {p : Char → Bool} : Sem (.star p) []
  | starCons {p : Char → Bool} {c : Char} {w : Str} :
      p c = true → Sem (.star p) w → Sem (.star p) (c :: w)
  | group {a : RE} {u : Str} : Sem a u → Sem (.group a) u

/-! ## Step lemmas -/

theorem stepDate_totalAmount (r : Receipt) (ls : Str) :
    (stepDate r ls).totalAmount = r.totalAmount := by
  unfold stepDate
  cases find dateRE ls with
  | none => rfl
  | some caps => dsimp only; split <;> rfl

theorem stepDate_items (r : Receipt) (ls : Str) :
    (stepDate r ls).items = r.items := by
  unfold stepDate
  cases find dateRE ls with
  | none => rfl
  | some caps => dsimp only; split <;> rfl

theorem stepDate_rawText (r : Receipt) (ls : Str) :
    (stepDate r ls).rawText = r.rawText := by
  unfold stepDate
  cases find dateRE ls with
  | none => rfl
  | some caps => dsimp only; split <;> rfl

theorem stepTotal_of_ne (r : Receipt) (ls : Str) (h : r.totalAmount ≠ 0) :
    stepTotal r ls = r := by
  unfold stepTotal
  cases find totalRE ls with
  | none => rfl
  | some caps => dsimp only; rw [if_neg h]

theorem stepTotal_items (r : Receipt) (ls : Str) :
    (stepTotal r ls).items = r.items := by
  unfold stepTotal
  repeat' split
  all_goals rfl

theorem stepTotal_rawText (r : Receipt) (ls : Str) :
    (stepTotal r ls).rawText = r.rawText := by
  unfold stepTotal
  repeat' split
  all_goals rfl

theorem stepStandalone_of_ne (r : Receipt) (ls : Str) (h : r.totalAmount ≠ 0) :
    stepStandalone r ls = r := by
  unfold stepStandalone
  rw [if_neg h]

theorem stepStandalone_items (r : Receipt) (ls : Str) :
    (stepStandalone r ls).items = r.items := by
  unfold stepStandalone
  repeat' split
  all_goals rfl

theorem stepStandalone_rawText (r : Receipt) (ls : Str) :
    (stepStandalone r ls).rawText = r.rawText := by
  unfold stepStandalone
  repeat' split
  all_goals rfl

theorem stepItems_totalAmount (cats : List (String × List String)) (texts : List String)
    (line : String) (r : Receipt) :
    (stepItems cats texts line r).totalAmount = r.totalAmount := by
  unfold stepItems
  repeat' split
  all_goals rfl

theorem stepItems_date (cats : List (String × List String)) (texts : List String)
    (line : String) (r : Receipt) :
    (stepItems cats texts line r).date = r.date := by
  unfold stepItems
  repeat' split
  all_goals rfl

theorem stepItems_rawText (cats : List (String × List String)) (texts : List String)
    (line : String) (r : Receipt) :
    (stepItems cats texts line r).rawText = r.rawText := by
  unfold stepItems
  repeat' split
  all_goals rfl

/-- Once the total is nonzero, one loop iteration preserves it. -/
theorem processLine_total_preserved (cats : List (String × List String))
    (texts : List String) (r : Receipt) (line : String) (h : r.totalAmount ≠ 0) :
    (processLine cats texts r line).totalAmount = r.totalAmount := by
  unfold processLine
  have h1 : (stepDate r line.data).totalAmount = r.totalAmount := stepDate_totalAmount r line.data
  rw [stepItems_totalAmount, stepTotal_of_ne _ _ (h1 ▸ h), stepStandalone_of_ne _ _ (h1 ▸ h), h1]

theorem processLine_rawText (cats : List (String × List String))
    (texts : List String) (r : Receipt) (line : String) :
    (processLine cats texts r line).rawText = r.rawText := by
  unfold processLine
  rw [stepItems_rawText, stepStandalone_rawText, stepTotal_rawText, stepDate_rawText]

theorem foldl_processLine_rawText (cats : List (String × List String))
    (texts : List String) (r : Receipt) (l : List String) :
    (l.foldl (processLine cats texts) r).rawText = r.rawText := by
  induction l generalizing r with
  | nil => rfl
  | cons a l ih => rw [List.foldl_cons, ih, processLine_rawText]

/-- Unfolding one step of the scan-state prefix. -/
theorem scanState_succ (cats : List (String × List String)) (texts : List String) (k : Nat) :
    scanState cats texts (k + 1) =
      match texts[k]? with
      | some l => processLine cats texts (scanState cats texts k) l
      | none => scanState cats texts k := by
  unfold scanState
  rw [List.take_succ, List.foldl_append]
  cases texts[k]? <;> rfl

/-! ## Claims -/

/-- C1: for every input corpus (including the empty one and corpora with
empty lines), `parseReceiptData` is total — it is defined by structural
recursion over the lines, so it terminates — and it returns a receipt
carrying the raw text, paired with a `nil` error: the parsing logic never
produces an error, and a partially-filled receipt is a valid result. -/
theorem C1_parse_total_never_errors (texts : List String) :
    (parseReceiptData texts).2 = none ∧ (parseReceiptData texts).1.rawText = texts := by
  refine ⟨rfl, ?_⟩
  show (parseWith canonicalCats texts).rawText = texts
  unfold parseWith
  rw [foldl_processLine_rawText]
  rfl

/-- C1 witness at a concrete input. -/
theorem C1_parse_total_never_errors_witness :
    (parseReceiptData ["", "Milk", "1 x3,99 3,99C"]).2 = none ∧
      (parseReceiptData ["", "Milk", "1 x3,99 3,99C"]).1.rawText = ["", "Milk", "1 x3,99 3,99C"] :=
  C1_parse_total_never_errors ["", "Milk", "1 x3,99 3,99C"]

/-- A nonzero total after some prefix persists through every longer
prefix. -/
theorem scanState_total_mono (cats : List (String × List String))
    (texts : List String) (i j : Nat) (hij : i ≤ j)
    (h : (scanState cats texts i).totalAmount ≠ 0) :
    (scanState cats texts j).totalAmount = (scanState cats texts i).totalAmount := by
  induction j, hij using Nat.le_induction with
  | base => rfl
  | succ j hij ih =>
    rw [scanState_succ]
    cases texts[j]? with
    | none => exact ih
    | some l =>
      dsimp only
      rw [processLine_total_preserved _ _ _ _ (ih ▸ h), ih]

/-- C2: throughout the per-line scan, once the receipt's total amount is
nonzero after some prefix of the lines, every longer prefix leaves it
unchanged: the first successful nonzero total match is final, for both the
keyword-total and the standalone-number branch. -/
theorem C2_nonzero_total_never_overwritten (cats : List (String × List String))
    (texts : List String) (i j : Nat) (hij : i ≤ j)
    (h : (scanState cats texts i).totalAmount ≠ 0) :
    (scanState cats texts j).totalAmount = (scanState cats texts i).totalAmount :=
  scanState_total_mono cats texts i j hij h

/-- C2 witness: after line 1 of the corpus the total is `45.67 ≠ 0`, and it
is unchanged after line 2, which also matches the keyword-total pattern. -/
theorem C2_nonzero_total_never_overwritten_witness :
    (1 : Nat) ≤ 2 ∧
      (scanState canonicalCats ["Suma 45,67", "Suma 1,00"] 1).totalAmount ≠ 0 ∧
      (scanState canonicalCats ["Suma 45,67", "Suma 1,00"] 2).totalAmount =
        (scanState canonicalCats ["Suma 45,67", "Suma 1,00"] 1).totalAmount :=
  ⟨by decide, by decide,
    C2_nonzero_total_never_overwritten canonicalCats ["Suma 45,67", "Suma 1,00"] 1 2
      (by decide) (by decide)⟩

/-- C3 counterexample: the two total tiers are interleaved per line, not
run as two passes.  In `["99,99", "Suma 45,67"]` the first line does not
match the keyword-total pattern but qualifies as a standalone total, so the
fallback fires first and the later keyword-total line `"Suma 45,67"` — the
first (and only) tier-1 match of the corpus, of value 45.67 — cannot
overwrite it: the final total is 99.99, not the tier-1 value.  This
falsifies the claim that the fallback contributes only when no line

anywhere matches tier 1. -/
theorem C3_counterexample :
    find totalRE "99,99".data = none ∧
    (find totalRE "Suma 45,67".data).isSome = true ∧
    parseCents (commaToDot (((find totalRE "Suma 45,67".data).getD []).getD 1 [])) = 4567 ∧
    (parseReceiptData ["99,99", "Suma 45,67"]).1.totalAmount = 9999 := by
  refine ⟨by decide, by decide, by decide, by decide⟩

/-- A line that matches neither total pattern usefully leaves a zero total
at zero. -/
theorem processLine_total_zero (cats : List (String × List String)) (texts : List String)
    (r : Receipt) (line : String) (h0 : r.totalAmount = 0)
    (ht : find totalRE line.data = none)
    (hs : standaloneQualifies line = false) :
    (processLine cats texts r line).totalAmount = 0 := by
  unfold processLine
  rw [stepItems_totalAmount]
  have hd : (stepDate r line.data).totalAmount = 0 := by rw [stepDate_totalAmount]; exact h0
  have ht2 : stepTotal (stepDate r line.data) line.data = stepDate r line.data := by
    unfold stepTotal; rw [ht]
  rw [ht2]
  unfold stepStandalone
  rw [if_pos hd]
  unfold standaloneQualifies at hs
  cases hfa : findAnchored standaloneRE line.data with
  | none => exact hd
  | some caps =>
    rw [hfa] at hs
    dsimp only at hs ⊢
    split at hs
    · split at hs
      · exact absurd hs (by simp)
      · rw [if_pos (by assumption), if_neg (by assumption)]; exact hd
    · rw [if_neg (by assumption)]; exact hd

/-- A tier-1 match on a line with zero running total sets the total to the
captured amount (when that amount is nonzero, the tier-2 branch of the same
line cannot change it again). -/
theorem processLine_total_sets (cats : List (String × List String)) (texts : List String)
    (r : Receipt) (line : String) (caps : Caps) (h0 : r.totalAmount = 0)
    (ht : find totalRE line.data = some caps)
    (hok : priceInRange (parseCents (commaToDot (caps.getD 1 []))) = true)
    (hv : parseCents (commaToDot (caps.getD 1 [])) ≠ 0) :
    (processLine cats texts r line).totalAmount = parseCents (commaToDot (caps.getD 1 [])) := by
  unfold processLine
  rw [stepItems_totalAmount]
  have hd : (stepDate r line.data).totalAmount = 0 := by rw [stepDate_totalAmount]; exact h0
  have ht2 : stepTotal (stepDate r line.data) line.data =
      { stepDate r line.data with totalAmount := parseCents (commaToDot (caps.getD 1 [])) } := by
    unfold stepTotal; rw [ht]; dsimp only; rw [if_pos hd, if_pos hok]
  rw [ht2, stepStandalone_of_ne _ _ hv]

/-- As long as no line matched tier 1 and no line qualified for tier 2,
the running total stays zero. -/
theorem scanState_total_zero (cats : List (String × List String)) (texts : List String)
    (i : Nat)
    (h2 : ∀ j, j < i → find totalRE (texts.getD j "").data = none)
    (h3 : ∀ j, j < i → standaloneQualifies (texts.getD j "") = false) :
    (scanState cats texts i).totalAmount = 0 := by
  induction i with
  | zero => rfl
  | succ k ih =>
    rw [scanState_succ]
    have ihz := ih (fun j hj => h2 j (by omega)) (fun j hj => h3 j (by omega))
    cases hk : texts[k]? with
    | none => exact ihz
    | some l =>
      dsimp only
      have hl : texts.getD k "" = l := by
        rw [List.getD_eq_getElem?_getD, hk]; rfl
      exact processLine_total_zero _ _ _ _ ihz (hl ▸ h2 k (by omega)) (hl ▸ h3 k (by omega))

/-- The full parse is the scan state at the corpus length. -/
theorem parseWith_eq_scanState (cats : List (String × List String)) (texts : List String) :
    parseWith cats texts = scanState cats texts texts.length := by
  unfold parseWith scanState
  rw [List.take_length]

/-- C3 amended: the interleaved two-tier rule.  If line `i` is the first
line matching the keyword-total pattern (matching under Go's simple case
folding), its captured amount is nonzero and within `float64` range, and
no earlier line qualifies for the standalone fallback, then the final
total is the tier-1 amount of line `i` — in particular tier-1 beats every
standalone line appearing at or after position `i`, which is the ordering
the spec's own example exercises. -/
theorem C3_amended_first_tier1_wins_if_no_earlier_match (cats : List (String × List String))
    (texts : List String) (i : Nat) (caps : Caps) (hi : i < texts.length)
    (ht : find totalRE (texts.getD i "").data = some caps)
    (hok : priceInRange (parseCents (commaToDot (caps.getD 1 []))) = true)
    (hv : parseCents (commaToDot (caps.getD 1 [])) ≠ 0)
    (h2 : ∀ j, j < i → find totalRE (texts.getD j "").data = none)
    (h3 : ∀ j, j < i → standaloneQualifies (texts.getD j "") = false) :
    (parseWith cats texts).totalAmount = parseCents (commaToDot (caps.getD 1 [])) := by
  have hz : (scanState cats texts i).totalAmount = 0 := scanState_total_zero cats texts i h2 h3
  have hsome : texts[i]? = some (texts.getD i "") := by
    rw [List.getElem?_eq_getElem hi, List.getD_eq_getElem]
  have hstep : (scanState cats texts (i + 1)).totalAmount =
      parseCents (commaToDot (caps.getD 1 [])) := by
    rw [scanState_succ, hsome]
    exact processLine_total_sets _ _ _ _ _ hz ht hok hv
  have hmono := scanState_total_mono cats texts (i + 1) texts.length (by omega)
    (by rw [hstep]; exact hv)
  rw [parseWith_eq_scanState, hmono, hstep]

/-- C3 amended witness: in `["abc", "Suma 45,67", "99,99"]` line 1 is the
first tier-1 match, nothing qualifies before it, and the final total is
45.67 even though a standalone line follows. -/
theorem C3_amended_first_tier1_wins_if_no_earlier_match_witness :
    (parseWith canonicalCats ["abc", "Suma 45,67", "99,99"]).totalAmount = 4567 :=
  C3_amended_first_tier1_wins_if_no_earlier_match canonicalCats
    ["abc", "Suma 45,67", "99,99"] 1 ["Suma".data, "45,67".data]
    (by decide) (by decide) (by decide) (by decide)
    (by decide) (by decide)

/-- C4 counterexample: the code never strips the matched tokens from the
line to obtain a name.  The single line `"Bread 1 x3,99 3,99C"` matches the
decimal item pattern and its residue after removing the matched tokens is
the non-empty `"Bread"`, so the claim demands the name `"Bread"`; the code
instead runs the previous-line loop, finds no occurrence at positive index
and emits the literal `"Unknown Item"` — a string that does not even occur
in the line, so it is no stripped residue, and there is no preceding
line. -/
theorem C4_counterexample :
    (parseReceiptData ["Bread 1 x3,99 3,99C"]).1.items.map ReceiptItem.name = ["Unknown Item"] ∧
    strContains "Bread 1 x3,99 3,99C" "Unknown Item" = false := by
  refine ⟨by decide, by decide⟩

/-- C5 counterexample: the decimal-quantity branch (line 372) checks only
"suma" and "total".  In `["Razem", "2 x2,00 4,00C"]` the item line is
matched by the decimal pattern, its resolved name `"Razem"` contains the
tier-1 keyword "razem", yet a `ReceiptItem` is appended — falsifying the
claim that every branch discards names containing any tier-1 keyword. -/
theorem C5_counterexample :
    strContains (lowerStr "Razem") "razem" = true ∧
    (parseReceiptData ["Razem", "2 x2,00 4,00C"]).1.items =
      [{ name := "Razem", price := 400, quantity := 2, category := "Other" }] := by
  refine ⟨by decide, by decide⟩

/-- C6 counterexample: the `×` form and the `x` form of the same line are
not equivalent, because the `x` form is captured by the decimal-quantity
pattern whose quantity group extends to the left.  For
`["Bread", "2,5 ×2,00 5,00C"]` the unicode branch parses quantity `5`
(the `(\d+)` group matches the `5` of `2,5`), while the substituted corpus
`["Bread", "2,5 x2,00 5,00C"]` goes through the decimal branch, which
parses quantity `2,5` and truncates it to `2`. -/
theorem C6_counterexample :
    subX "2,5 ×2,00 5,00C" = "2,5 x2,00 5,00C" ∧
    (parseReceiptData ["Bread", "2,5 ×2,00 5,00C"]).1.items.map ReceiptItem.quantity = [5] ∧
    (parseReceiptData ["Bread", "2,5 x2,00 5,00C"]).1.items.map ReceiptItem.quantity = [2] ∧
    (parseReceiptData ["Bread", "2,5 ×2,00 5,00C"]).1.items ≠
      (parseReceiptData ["Bread", "2,5 x2,00 5,00C"]).1.items := by
  refine ⟨by decide, by decide, by decide, by decide⟩

/-- C8 counterexample: `categorizeItem` iterates a Go `map`, whose
iteration order is unspecified and randomized per run, and the code has no
tie-breaking priority list.  The two orders below are permutations of the
same category map, yet on the corpus `["Mleko chleb", "1 x3,00 3,00C"]`
(whose item name contains a Dairy keyword and a Bakery keyword) they
produce different receipts — so two runs of `parseReceiptData` need not
agree, and ties are resolved by incidental map order, not by a fixed
priority list. -/
theorem C8_counterexample :
    canonicalCats.Perm bakeryFirstCats ∧
    (parseWith canonicalCats ["Mleko chleb", "1 x3,00 3,00C"]).items.map ReceiptItem.category
      = ["Dairy"] ∧
    (parseWith bakeryFirstCats ["Mleko chleb", "1 x3,00 3,00C"]).items.map ReceiptItem.category
      = ["Bakery"] ∧
    parseWith canonicalCats ["Mleko chleb", "1 x3,00 3,00C"] ≠
      parseWith bakeryFirstCats ["Mleko chleb", "1 x3,00 3,00C"] := by
  refine ⟨by decide, by decide, by decide, by decide⟩

/-- C9 counterexample: the name loop requires `i > 0`, so when the matched
line's first occurrence is at index 0 but the same text recurs later, the
name is taken from before the later occurrence, not `"Unknown Item"`.  In
`["1 x2,00 2,00C", "Apple", "1 x2,00 2,00C"]` the item produced while
scanning index 0 (whose line first occurs at index 0) is named `"Apple"`
(= the line before index 2), falsifying the claim's "first occurrence at
index 0 gives Unknown Item". -/
theorem C9_counterexample :
    ["1 x2,00 2,00C", "Apple", "1 x2,00 2,00C"].getD 0 "" = "1 x2,00 2,00C" ∧
    (parseReceiptData ["1 x2,00 2,00C", "Apple", "1 x2,00 2,00C"]).1.items.map ReceiptItem.name
      = ["Apple", "Apple"] := by
  refine ⟨by decide, by decide⟩

/-- The name loop characterized by `findIdx?` over the tail. -/
theorem lookupFrom_eq_findIdx (prev line : String) (rest : List String) :
    lookupFrom prev line rest =
      match rest.findIdx? (fun t => t = line) with
      | none => "Unknown Item"
      | some 0 => prev
      | some (j + 1) => rest.getD j "" := by
  induction rest generalizing prev with
  | nil => rfl
  | cons t rest ih =>
    rw [List.findIdx?_cons, List.findIdx?_succ]
    by_cases h : t = line
    · simp [lookupFrom, h]
    · have hd : (decide (t = line)) = false := by simp [h]
      simp only [lookupFrom, if_neg h, hd, Bool.false_eq_true, if_false, ih t]
      cases hfi : rest.findIdx? (fun t => t = line) with
      | none => rfl
      | some j => cases j <;> rfl

/-- C9 amended: when a line matches an item pattern, the name loop scans
for the first index `i > 0` with `texts[i]` equal to the matched line and
returns `texts[i-1]`; consequently an item produced at a later duplicate
position takes its name from before the earliest occurrence **at positive
index**, and the name is `"Unknown Item"` exactly when the matched text
occurs nowhere past index 0 — a first occurrence at index 0 yields
`"Unknown Item"` only if the text never recurs. -/
theorem C9_amended_lookup_characterization (t0 line : String) (rest : List String) :
    lookupName (t0 :: rest) line =
      match rest.findIdx? (fun t => t = line) with
      | none => "Unknown Item"
      | some 0 => t0
      | some (j + 1) => rest.getD j "" :=
  lookupFrom_eq_findIdx t0 line rest

/-- C4 amended: no branch ever strips the matched tokens from the line;
whenever any of the three item branches appends an item, its name is the
result of the previous-line loop `lookupName`, independently of whether
the stripped residue would have been empty. -/
theorem C4_amended_name_always_previous_line (cats : List (String × List String))
    (texts : List String) (line : String) (r : Receipt) :
    (stepItems cats texts line r).items = r.items ∨
    ∃ price qty, (stepItems cats texts line r).items = r.items ++
      [{ name := lookupName texts line, price := price, quantity := qty,
         category := categorizeItemWith cats (lookupName texts line) }] := by
  unfold stepItems
  split
  · split
    · split
      · exact Or.inl rfl
      · exact Or.inr ⟨_, _, rfl⟩
    · exact Or.inl rfl
  · split
    · split
      · split
        · exact Or.inl rfl
        · exact Or.inr ⟨_, _, rfl⟩
      · exact Or.inl rfl
    · split
      · split
        · split
          · exact Or.inl rfl
          · exact Or.inr ⟨_, _, rfl⟩
        · exact Or.inl rfl
      · exact Or.inl rfl

/-- C5 amended: in every branch a match is discarded when the resolved
name case-insensitively contains "suma" or "total"; the "razem" keyword is
additionally checked only by the integer-`x` and unicode branches, not by
the decimal branch (which handles every ASCII-`x` line). -/
theorem C5_amended_branch_filters (cats : List (String × List String))
    (texts : List String) (line : String) (r : Receipt) :
    ((find itemRE line.data).isSome = true →
      nameIsTotalish2 (lookupName texts line) = true →
      stepItems cats texts line r = r) ∧
    (find itemRE line.data = none → (find simpleItemRE line.data).isSome = true →
      nameIsTotalish3 (lookupName texts line) = true →
      stepItems cats texts line r = r) ∧
    (find itemRE line.data = none → find simpleItemRE line.data = none →
      (find unicodeItemRE line.data).isSome = true →
      nameIsTotalish3 (lookupName texts line) = true →
      stepItems cats texts line r = r) := by
  refine ⟨?_, ?_, ?_⟩
  · intro h1 h2
    unfold stepItems
    cases hf : find itemRE line.data with
    | none => rw [hf] at h1; exact absurd h1 (by simp)
    | some caps =>
      dsimp only
      by_cases hp : priceInRange (parseCents (commaToDot (caps.getD 2 []))) = true
      · rw [if_pos hp, if_pos h2]
      · rw [if_neg hp]
  · intro h1 h2 h3
    unfold stepItems
    cases hf : find simpleItemRE line.data with
    | none => rw [hf] at h2; exact absurd h2 (by simp)
    | some caps =>
      rw [h1]
      dsimp only
      by_cases hp : priceInRange (parseCents (commaToDot (caps.getD 2 []))) = true
      · rw [if_pos hp, if_pos h3]
      · rw [if_neg hp]
  · intro h1 h2 h3 h4
    unfold stepItems
    cases hf : find unicodeItemRE line.data with
    | none => rw [hf] at h3; exact absurd h3 (by simp)
    | some caps =>
      rw [h1, h2]
      dsimp only
      by_cases hp : priceInRange (parseCents (commaToDot (caps.getD 2 []))) = true
      · rw [if_pos hp, if_pos h4]
      · rw [if_neg hp]

/-- C5 amended witness: a decimal-pattern line under name "Suma" is
discarded; a unicode-pattern line under name "Razem" is discarded. -/
theorem C5_amended_branch_filters_witness :
    stepItems canonicalCats ["Suma", "2 x2,00 4,00C"] "2 x2,00 4,00C"
        (initReceipt ["Suma", "2 x2,00 4,00C"]) = initReceipt ["Suma", "2 x2,00 4,00C"] ∧
    stepItems canonicalCats ["Razem", "2 ×2,00 4,00C"] "2 ×2,00 4,00C"
        (initReceipt ["Razem", "2 ×2,00 4,00C"]) = initReceipt ["Razem", "2 ×2,00 4,00C"] :=
  ⟨(C5_amended_branch_filters canonicalCats ["Suma", "2 x2,00 4,00C"] "2 x2,00 4,00C"
      (initReceipt ["Suma", "2 x2,00 4,00C"])).1 (by decide) (by decide),
   (C5_amended_branch_filters canonicalCats ["Razem", "2 ×2,00 4,00C"] "2 ×2,00 4,00C"
      (initReceipt ["Razem", "2 ×2,00 4,00C"])).2.2 (by decide) (by decide) (by decide)
      (by decide)⟩

/-- The merchant loop, characterized: starting at index `i ≤ 5` on a list
long enough to reach index `5 - i`, it returns the first marker line of
the first `6 - i` elements, or the element at index `5 - i` when none of
them has a marker. -/
theorem merchantLoop_eq (ls : List String) (i : Nat) (hi : i ≤ 5) (hlen : 5 - i < ls.length) :
    merchantLoop ls i =
      match (ls.take (6 - i)).findIdx? hasMarker with
      | some j => ls.getD j ""
      | none => ls.getD (5 - i) "" := by
  induction ls generalizing i with
  | nil => simp at hlen
  | cons l rest ih =>
    have h6 : 6 - i = (5 - i) + 1 := by omega
    unfold merchantLoop
    by_cases hm : hasMarker l = true
    · rw [if_pos hm, h6, List.take_succ_cons, List.findIdx?_cons, if_pos hm]
      rfl
    · rw [if_neg hm]
      rw [h6, List.take_succ_cons, List.findIdx?_cons,
        if_neg hm, List.findIdx?_succ]
      by_cases hi5 : i = 5
      · rw [if_pos hi5]
        subst hi5
        simp
      · rw [if_neg hi5]
        have h45 : 5 - i = (5 - (i + 1)) + 1 := by omega
        rw [ih (i + 1) (by omega) (by simp at hlen; omega)]
        have h56 : 6 - (i + 1) = 5 - i := by omega
        rw [h56]
        cases hfi : (rest.take (5 - i)).findIdx? hasMarker with
        | none =>
          have h45b : 5 - i = (4 - i) + 1 := by omega
          simp [h45b]
        | some j => simp [List.getD_cons_succ]

/-- C7: merchant extraction uses only the first recognized block, split
into lines.  With five or fewer lines the merchant is the first line
verbatim; with more than five lines it is the first line containing a
business-entity marker among the first six lines, or the sixth line
verbatim when no marker occurs there. -/
theorem C7_merchant_extraction (t0 : String) (ts : List String) :
    (((splitNL t0.data).map String.mk).length ≤ 5 →
      extractMerchant (t0 :: ts) = ((splitNL t0.data).map String.mk).headD "") ∧
    (5 < ((splitNL t0.data).map String.mk).length →
      extractMerchant (t0 :: ts) =
        match (((splitNL t0.data).map String.mk).take 6).findIdx? hasMarker with
        | some j => ((splitNL t0.data).map String.mk).getD j ""
        | none => ((splitNL t0.data).map String.mk).getD 5 "") := by
  constructor
  · intro h
    simp only [extractMerchant]
    rw [if_neg (by omega)]
  · intro h
    simp only [extractMerchant]
    rw [if_pos h]
    exact merchantLoop_eq _ 0 (by omega) (by omega)

/-- C7 witness: a 3-line block uses line 1; an 8-line block without marker
uses line 6; a 7-line block with a marker at line 3 uses that line. -/
theorem C7_merchant_extraction_witness :
    extractMerchant ["A\nB\nC"] = "A" ∧
    extractMerchant ["L1\nL2\nL3\nL4\nL5\nL6\nL7\nL8"] = "L6" ∧
    extractMerchant ["x\ny\nFoo sp. z o.o.\nd\ne\nf\ng"] = "Foo sp. z o.o." :=
  ⟨((C7_merchant_extraction "A\nB\nC" []).1 (by decide)).trans (by decide),
   ((C7_merchant_extraction "L1\nL2\nL3\nL4\nL5\nL6\nL7\nL8" []).2 (by decide)).trans
     (by decide),
   ((C7_merchant_extraction "x\ny\nFoo sp. z o.o.\nd\ne\nf\ng" []).2 (by decide)).trans
     (by decide)⟩

/-- Appending an item to a recategorized receipt is recategorizing after
appending (the stored category is a function of the name only). -/
theorem appendItem_recat (cats : List (String × List String)) (r : Receipt)
    (n : String) (p q : Nat) :
    appendItem cats (recat cats r) n p q = recat cats (appendItem [] r n p q) := by
  unfold appendItem recat
  dsimp only
  rw [List.map_append]
  rfl

theorem stepDate_recat (cats : List (String × List String)) (r : Receipt) (ls : Str) :
    stepDate (recat cats r) ls = recat cats (stepDate r ls) := by
  unfold stepDate
  cases find dateRE ls with
  | none => rfl
  | some caps =>
    dsimp only
    by_cases h : r.date = ""
    · rw [if_pos h, if_pos (show (recat cats r).date = "" from h)]; rfl
    · rw [if_neg h, if_neg (show ¬(recat cats r).date = "" from h)]

theorem stepTotal_recat (cats : List (String × List String)) (r : Receipt) (ls : Str) :
    stepTotal (recat cats r) ls = recat cats (stepTotal r ls) := by
  unfold stepTotal
  cases find totalRE ls with
  | none => rfl
  | some caps =>
    dsimp only
    by_cases h : r.totalAmount = 0
    · rw [if_pos h, if_pos (show (recat cats r).totalAmount = 0 from h)]
      by_cases hp : priceInRange (parseCents (commaToDot (caps.getD 1 []))) = true
      · rw [if_pos hp, if_pos hp]; rfl
      · rw [if_neg hp, if_neg hp]
    · rw [if_neg h, if_neg (show ¬(recat cats r).totalAmount = 0 from h)]

theorem stepStandalone_recat (cats : List (String × List String)) (r : Receipt) (ls : Str) :
    stepStandalone (recat cats r) ls = recat cats (stepStandalone r ls) := by
  unfold stepStandalone
  by_cases h : r.totalAmount = 0
  · rw [if_pos h, if_pos (show (recat cats r).totalAmount = 0 from h)]
    cases findAnchored standaloneRE ls with
    | none => rfl
    | some caps =>
      dsimp only
      by_cases hp : priceInRange (parseCents (commaToDot (caps.headD []))) = true
      · rw [if_pos hp, if_pos hp]
        by_cases hv : 1000 < parseCents (commaToDot (caps.headD []))
        · rw [if_pos hv, if_pos hv]; rfl
        · rw [if_neg hv, if_neg hv]
      · rw [if_neg hp, if_neg hp]
  · rw [if_neg h, if_neg (show ¬(recat cats r).totalAmount = 0 from h)]

theorem stepItems_recat (cats : List (String × List String)) (texts : List String)
    (line : String) (r : Receipt) :
    stepItems cats texts line (recat cats r) = recat cats (stepItems [] texts line r) := by
  unfold stepItems
  cases find itemRE line.data with
  | some caps =>
    dsimp only
    by_cases hp : priceInRange (parseCents (commaToDot (caps.getD 2 []))) = true
    · rw [if_pos hp, if_pos hp]
      by_cases h : nameIsTotalish2 (lookupName texts line) = true
      · rw [if_pos h, if_pos h]
      · rw [if_neg h, if_neg h]; exact appendItem_recat cats r _ _ _
    · rw [if_neg hp, if_neg hp]
  | none =>
    dsimp only
    cases find simpleItemRE line.data with
    | some caps =>
      dsimp only
      by_cases hp : priceInRange (parseCents (commaToDot (caps.getD 2 []))) = true
      · rw [if_pos hp, if_pos hp]
        by_cases h : nameIsTotalish3 (lookupName texts line) = true
        · rw [if_pos h, if_pos h]
        · rw [if_neg h, if_neg h]; exact appendItem_recat cats r _ _ _
      · rw [if_neg hp, if_neg hp]
    | none =>
      dsimp only
      cases find unicodeItemRE line.data with
      | some caps =>
        dsimp only
        by_cases hp : priceInRange (parseCents (commaToDot (caps.getD 2 []))) = true
        · rw [if_pos hp, if_pos hp]
          by_cases h : nameIsTotalish3 (lookupName texts line) = true
          · rw [if_pos h, if_pos h]
          · rw [if_neg h, if_neg h]; exact appendItem_recat cats r _ _ _
        · rw [if_neg hp, if_neg hp]
      | none => rfl

theorem processLine_recat (cats : List (String × List String)) (texts : List String)
    (r : Receipt) (line : String) :
    processLine cats texts (recat cats r) line = recat cats (processLine [] texts r line) := by
  unfold processLine
  rw [stepDate_recat, stepTotal_recat, stepStandalone_recat, stepItems_recat]

theorem foldl_processLine_recat (cats : List (String × List String)) (texts : List String)
    (l : List String) (r : Receipt) :
    l.foldl (processLine cats texts) (recat cats r) =
      recat cats (l.foldl (processLine [] texts) r) := by
  induction l generalizing r with
  | nil => rfl
  | cons a l ih => rw [List.foldl_cons, List.foldl_cons, processLine_recat, ih]

/-- The whole parse factors through a category-free parse: the category
table only ever determines the items' category fields, recomputed from
their names. -/
theorem parseWith_recat (cats : List (String × List String)) (texts : List String) :
    parseWith cats texts = recat cats (parseWith [] texts) := by
  unfold parseWith
  have h0 : initReceipt texts = recat cats (initReceipt texts) := rfl
  conv_lhs => rw [h0]
  rw [foldl_processLine_recat]

theorem eraseCat_recat (cats : List (String × List String)) (r : Receipt) :
    eraseCat (recat cats r) = eraseCat r := by
  unfold eraseCat recat
  dsimp only
  rw [List.map_map]
  congr 1

/-- C8 amended: `parseReceiptData` is deterministic as a function of the
corpus **and** of the category-map iteration order; every output field
except the items' category fields is independent of that order.  The
category of a tie description genuinely depends on the unspecified map
order (see the counterexample), because the code resolves ties by
incidental iteration order, not by a fixed priority list. -/
theorem C8_amended_order_independent_except_category (cats1 cats2 : List (String × List String))
    (texts : List String) :
    eraseCat (parseWith cats1 texts) = eraseCat (parseWith cats2 texts) := by
  rw [parseWith_recat cats1, parseWith_recat cats2, eraseCat_recat, eraseCat_recat]

/-! ## Soundness and completeness of the matcher for `Sem` -/

/-- `starM` succeeds whenever its continuation succeeds at the current
position (the star may always match the empty word). -/
theorem starM_ne_none (p : Char → Bool) (k : Str → Caps → Option Caps) (s : Str) (caps : Caps)
    (hk : ∀ caps', k s caps' ≠ none) : starM p k s caps ≠ none := by
  cases s with
  | nil => exact hk caps
  | cons c rest =>
    unfold starM
    by_cases hp : p c = true
    · rw [if_pos hp]
      cases hres : starM p k rest caps with
      | some res => simp
      | none => exact hk caps
    · rw [if_neg hp]
      exact hk caps

/-- Completeness: if `r` matches `w` in the language semantics and the
continuation succeeds after `w`, the backtracking matcher succeeds. -/
theorem mtch_complete {r : RE} {w : Str} (h : Sem r w) :
    ∀ (rest : Str) (caps : Caps) (k : Str → Caps → Option Caps),
      (∀ caps', k rest caps' ≠ none) → mtch r (w ++ rest) caps k ≠ none := by
  induction h with
  | eps => intro rest caps k hk; exact hk caps
  | cls hp =>
    intro rest caps k hk
    show mtch (.cls _) (_ :: ([] ++ rest)) caps k ≠ none
    simp only [mtch, List.nil_append]
    rw [if_pos hp]
    exact hk caps
  | cat ha hb iha ihb =>
    intro rest caps k hk
    rw [List.append_assoc]
    exact iha _ caps _ (fun caps' => ihb rest caps' k hk)
  | altL ha iha =>
    intro rest caps k hk
    simp only [mtch]
    cases hma : mtch _ (_ ++ rest) caps k with
    | some res => simp
    | none => exact absurd hma (iha rest caps k hk)
  | altR hb ihb =>
    intro rest caps k hk
    simp only [mtch]
    cases hma : mtch _ (_ ++ rest) caps k with
    | some res => simp
    | none => exact ihb rest caps k hk
  | starNil =>
    intro rest caps k hk
    exact starM_ne_none _ k rest caps hk
  | starCons hp hw ih =>
    intro rest caps k hk
    show starM _ k (_ :: (_ ++ rest)) caps ≠ none
    unfold starM
    rw [if_pos hp]
    cases hres : starM _ k (_ ++ rest) caps with
    | some res => simp
    | none => exact absurd hres (ih rest caps k hk)
  | group ha iha =>
    intro rest caps k hk
    simp only [mtch]
    exact iha rest caps _ (fun caps' => hk _)

/-- Soundness of `starM`: a success decomposes the input into a starred
prefix and a position where the continuation succeeds. -/
theorem starM_sound (p : Char → Bool) (k : Str → Caps → Option Caps) :
    ∀ (s : Str) (caps : Caps), starM p k s caps ≠ none →
      ∃ u rest, s = u ++ rest ∧ Sem (.star p) u ∧ ∃ caps', k rest caps' ≠ none := by
  intro s
  induction s with
  | nil =>
    intro caps h
    exact ⟨[], [], rfl, Sem.starNil, ⟨caps, h⟩⟩
  | cons c s ih =>
    intro caps h
    unfold starM at h
    by_cases hp : p c = true
    · rw [if_pos hp] at h
      cases hres : starM p k s caps with
      | some res =>
        have h2 : starM p k s caps ≠ none := by rw [hres]; simp
        obtain ⟨u, rest, he, hsem, caps', hk⟩ := ih caps h2
        exact ⟨c :: u, rest, by rw [he]; rfl, Sem.starCons hp hsem, ⟨caps', hk⟩⟩
      | none =>
        rw [hres] at h
        exact ⟨[], c :: s, rfl, Sem.starNil, ⟨caps, h⟩⟩
    · rw [if_neg hp] at h
      exact ⟨[], c :: s, rfl, Sem.starNil, ⟨caps, h⟩⟩

/-- Soundness: a matcher success decomposes the input into a prefix in the
language of `r` and a position where the continuation succeeds. -/
theorem mtch_sound : ∀ (r : RE) (w : Str) (caps : Caps) (k : Str → Caps → Option Caps),
    mtch r w caps k ≠ none →
    ∃ u rest, w = u ++ rest ∧ Sem r u ∧ ∃ caps', k rest caps' ≠ none := by
  intro r
  induction r with
  | eps =>
    intro w caps k h
    exact ⟨[], w, rfl, Sem.eps, ⟨caps, h⟩⟩
  | cls p =>
    intro w caps k h
    cases w with
    | nil => simp [mtch] at h
    | cons c rest =>
      simp only [mtch] at h
      by_cases hp : p c = true
      · rw [if_pos hp] at h
        exact ⟨[c], rest, rfl, Sem.cls hp, ⟨caps, h⟩⟩
      · rw [if_neg hp] at h
        exact absurd rfl h
  | cat a b iha ihb =>
    intro w caps k h
    simp only [mtch] at h
    obtain ⟨u1, rest1, he1, hs1, caps1, hk1⟩ := iha w caps _ h
    obtain ⟨u2, rest2, he2, hs2, caps2, hk2⟩ := ihb rest1 caps1 k hk1
    exact ⟨u1 ++ u2, rest2, by rw [he1, he2, List.append_assoc], Sem.cat hs1 hs2, ⟨caps2, hk2⟩⟩
  | alt a b iha ihb =>
    intro w caps k h
    simp only [mtch] at h
    cases hma : mtch a w caps k with
    | some res =>
      have h2 : mtch a w caps k ≠ none := by rw [hma]; simp
      obtain ⟨u, rest, he, hs, caps', hk⟩ := iha w caps k h2
      exact ⟨u, rest, he, Sem.altL hs, ⟨caps', hk⟩⟩
    | none =>
      rw [hma] at h
      obtain ⟨u, rest, he, hs, caps', hk⟩ := ihb w caps k h
      exact ⟨u, rest, he, Sem.altR hs, ⟨caps', hk⟩⟩
  | star p =>
    intro w caps k h
    exact starM_sound p k w caps h
  | group a iha =>
    intro w caps k h
    simp only [mtch] at h
    obtain ⟨u, rest, he, hs, caps', hk⟩ := iha w caps _ h
    exact ⟨u, rest, he, Sem.group hs, ⟨caps' ++ [w.take (w.length - rest.length)], hk⟩⟩

/-- `findAt` succeeds exactly when some prefix is in the language. -/
theorem findAt_iff (r : RE) (s : Str) :
    findAt r s ≠ none ↔ ∃ u rest, s = u ++ rest ∧ Sem r u := by
  constructor
  · intro h
    obtain ⟨u, rest, he, hs, _, _⟩ := mtch_sound r s [] _ h
    exact ⟨u, rest, he, hs⟩
  · rintro ⟨u, rest, he, hs⟩
    subst he
    exact mtch_complete hs rest [] _ (fun caps' => by simp)

/-- `find` succeeds exactly when some factor of the input is in the
language (Go `FindStringSubmatch` returns non-nil iff a match exists). -/
theorem find_iff (r : RE) (s : Str) :
    find r s ≠ none ↔ ∃ pre u post, s = pre ++ (u ++ post) ∧ Sem r u := by
  induction s with
  | nil =>
    show findAt r [] ≠ none ↔ _
    rw [findAt_iff]
    constructor
    · rintro ⟨u, rest, he, hs⟩
      exact ⟨[], u, rest, he, hs⟩
    · rintro ⟨pre, u, post, he, hs⟩
      have hpre : pre = [] := by
        cases pre with
        | nil => rfl
        | cons a l => simp at he
      subst hpre
      exact ⟨u, post, by simpa using he, hs⟩
  | cons c s ih =>
    simp only [find]
    constructor
    · intro h
      cases hfa : findAt r (c :: s) with
      | some res =>
        have h2 : findAt r (c :: s) ≠ none := by rw [hfa]; simp
        obtain ⟨u, rest, he, hs⟩ := (findAt_iff r _).mp h2
        exact ⟨[], u, rest, by simpa using he, hs⟩
      | none =>
        rw [hfa] at h
        obtain ⟨pre, u, post, he, hs⟩ := ih.mp h
        exact ⟨c :: pre, u, post, by rw [List.cons_append, ← he], hs⟩
    · rintro ⟨pre, u, post, he, hs⟩
      cases hfa : findAt r (c :: s) with
      | some res => simp
      | none =>
        cases pre with
        | nil =>
          have h2 : findAt r (c :: s) ≠ none :=
            (findAt_iff r _).mpr ⟨u, post, by simpa using he, hs⟩
          exact absurd hfa h2
        | cons c' pre' =>
          have he2 : s = pre' ++ (u ++ post) := by
            rw [List.cons_append] at he
            exact (List.cons.injEq c s c' _).mp he |>.2
          exact ih.mpr ⟨pre', u, post, he2, hs⟩

/-- Every word of the integer-quantity pattern is a word of the
decimal-quantity pattern: the optional separator and trailing digits may
be empty. -/
theorem sem_simple_to_item {w : Str} (h : Sem simpleItemRE w) : Sem itemRE w := by
  unfold simpleItemRE at h
  unfold itemRE
  cases h with
  | cat h1 h2 =>
    cases h1 with
    | group hplus =>
      refine Sem.cat (Sem.group ?_) h2
      have h3 := Sem.cat hplus
        (Sem.cat (@Sem.altR (.cls isDotComma) RE.eps [] Sem.eps) (@Sem.starNil isDigitGo))
      simpa using h3

/-- Any string matched somewhere by the integer pattern is matched
somewhere by the decimal pattern. -/
theorem simple_sub_item (s : Str) (h : find simpleItemRE s ≠ none) : find itemRE s ≠ none := by
  obtain ⟨pre, u, post, he, hs⟩ := (find_iff simpleItemRE s).mp h
  exact (find_iff itemRE s).mpr ⟨pre, u, post, he, sem_simple_to_item hs⟩

/-- C10: every line matched by `simpleItemPattern` is also matched by
`itemPattern` (its quantity group `(\d+[.,]?\d*)` accepts every `(\d+)`
match with the optional parts empty), so the `else if` integer-ASCII
branch of the item chain can never run — such lines are always consumed by
the decimal branch, whose name filter checks only "suma" and "total"
(witness the name "Razem", rejected by the three-keyword filter of the
dead branch but accepted by the decimal branch's filter). -/
theorem C10_simple_branch_unreachable (s : Str) (h : find simpleItemRE s ≠ none) :
    find itemRE s ≠ none ∧ nameIsTotalish2 "Razem" = false ∧ nameIsTotalish3 "Razem" = true :=
  ⟨simple_sub_item s h, by decide, by decide⟩

/-- C10 witness at the spec's own example line. -/
theorem C10_simple_branch_unreachable_witness :
    find itemRE "1 x3,99 3,99C".data ≠ none ∧
      nameIsTotalish2 "Razem" = false ∧ nameIsTotalish3 "Razem" = true :=
  C10_simple_branch_unreachable "1 x3,99 3,99C".data (by decide)

/-- The comma-to-dot replacement fixes all-digit tokens. -/
theorem commaToDot_of_digits (s : Str) (h : s.all isDigitGo = true) : commaToDot s = s := by
  unfold commaToDot
  induction s with
  | nil => rfl
  | cons c cs ih =>
    simp only [List.all_cons, Bool.and_eq_true] at h
    simp only [List.map_cons]
    rw [if_neg ?_, ih h.2]
    intro hc
    rw [hc] at h
    exact absurd h.1 (by decide)

/-- The fuelled halving logarithm is the floor base-2 logarithm. -/
theorem log2Fuel_spec : ∀ (fuel n : Nat), 1 ≤ n → n ≤ fuel →
    2 ^ log2Fuel fuel n ≤ n ∧ n < 2 ^ (log2Fuel fuel n + 1) := by
  intro fuel
  induction fuel with
  | zero => intro n h1 h2; omega
  | succ fuel ih =>
    intro n h1 h2
    unfold log2Fuel
    by_cases hn : n < 2
    · rw [if_pos hn]
      constructor
      · simpa using h1
      · simpa using hn
    · rw [if_neg hn]
      obtain ⟨ha, hb⟩ := ih (n / 2) (by omega) (by omega)
      have hp1 : (2:Nat) ^ (log2Fuel fuel (n / 2) + 1) = 2 ^ log2Fuel fuel (n / 2) * 2 :=
        pow_succ 2 _
      have hp2 : (2:Nat) ^ (log2Fuel fuel (n / 2) + 1 + 1) =
          2 ^ (log2Fuel fuel (n / 2) + 1) * 2 := pow_succ 2 _
      constructor
      · rw [hp1]; omega
      · rw [hp2]; omega

/-- `log2N` is the floor base-2 logarithm. -/
theorem log2N_spec (n : Nat) (h : 1 ≤ n) :
    2 ^ log2N n ≤ n ∧ n < 2 ^ (log2N n + 1) :=
  log2Fuel_spec n n h le_rfl

/-- `strconv.Atoi` does not saturate below `2^53`. -/
theorem atoiSat_of_small (s : Str) (h : digitsToNat s < 2 ^ 53) :
    atoiSat s = digitsToNat s := by
  unfold atoiSat
  have h2 : (2:Nat) ^ 53 ≤ 9223372036854775807 := by norm_num
  omega

/-- Rounding a fraction with denominator 1 is exact. -/
theorem roundDiv_one (num : Nat) : roundDiv num 1 = num := by
  unfold roundDiv
  simp [Nat.mod_one]

/-- An integer below `2^53` is exactly representable in `float64`, so
`int(strconv.ParseFloat)` on an all-digit token of value below `2^53`
returns the value itself: the rounding grid step divides the value and
truncation is the identity. -/
theorem intOfParseFloat_digits (s : Str) (hdig : s.all isDigitGo = true)
    (hlt : digitsToNat s < 2 ^ 53) :
    intOfParseFloat s = digitsToNat s := by
  unfold intOfParseFloat
  have hfil : s.filter isDigitGo = s := List.filter_eq_self.mpr (List.all_eq_true.mp hdig)
  have hdw : s.dropWhile isDigitGo = [] :=
    List.dropWhile_eq_nil_iff.mpr (List.all_eq_true.mp hdig)
  have hk : fracLen s = 0 := by unfold fracLen; rw [hdw]; rfl
  rw [hfil, hk]
  set n := digitsToNat s with hn
  by_cases h0 : n = 0
  · unfold intOfDecimal; rw [if_pos h0]; omega
  · obtain ⟨hA, hB⟩ := log2N_spec n (by omega)
    set L := log2N n with hLdef
    have hL52 : L ≤ 52 := by
      by_contra hgt
      push_neg at hgt
      have : (2:Nat) ^ 53 ≤ 2 ^ L := Nat.pow_le_pow_right (by omega) (by omega)
      omega
    have he : floorLog2 n 0 = (L : ℤ) := by
      unfold floorLog2
      have h10 : log2N (10 ^ 0) = 0 := rfl
      rw [h10]
      dsimp only
      rw [Nat.cast_zero, sub_zero]
      have hple : pow2Le (L : ℤ) n 0 = true := by
        unfold pow2Le
        have hc : (0:ℤ) ≤ (L : ℤ) := by omega
        rw [if_pos hc]
        have htn : ((L : ℤ)).toNat = L := by omega
        rw [htn]
        simpa using hA
      rw [hple]
      simp
    have hg : floatExp n 0 = (L : ℤ) - 52 := by
      unfold floatExp
      rw [he]
      have hc : (-1022:ℤ) ≤ (L : ℤ) := by omega
      rw [if_pos hc]
    have hm : roundMant n 0 ((L : ℤ) - 52) = n * 2 ^ (52 - L) := by
      unfold roundMant
      by_cases hg0 : (0:ℤ) ≤ (L : ℤ) - 52
      · have hL : L = 52 := by omega
        have htn0 : ((L : ℤ) - 52).toNat = 0 := by omega
        rw [if_pos hg0, htn0]
        have h52 : 52 - L = 0 := by omega
        rw [h52]
        simpa using roundDiv_one n
      · have htnj : ((-((L : ℤ) - 52)).toNat) = 52 - L := by omega
        rw [if_neg hg0, htnj]
        simpa using roundDiv_one (n * 2 ^ (52 - L))
    have hbig : ¬ 2 ^ (((1024:ℤ) - ((L : ℤ) - 52)).toNat) ≤ n * 2 ^ (52 - L) := by
      have htn2 : (((1024:ℤ) - ((L : ℤ) - 52)).toNat) = 1076 - L := by omega
      rw [htn2]
      have hlt2 : n * 2 ^ (52 - L) < 2 ^ 53 * 2 ^ (52 - L) := by
        have hpos : 0 < (2:Nat) ^ (52 - L) := Nat.pos_pow_of_pos _ (by omega)
        exact (Nat.mul_lt_mul_right hpos).mpr hlt
      have hsum : (2:Nat) ^ 53 * 2 ^ (52 - L) = 2 ^ (105 - L) := by
        rw [← pow_add]
        congr 1
        omega
      have hle2 : (2:Nat) ^ (105 - L) ≤ 2 ^ (1076 - L) :=
        Nat.pow_le_pow_right (by omega) (by omega)
      omega
    have htr : truncOfFloat (n * 2 ^ (52 - L)) ((L : ℤ) - 52) = n := by
      unfold truncOfFloat
      by_cases hg0 : (0:ℤ) ≤ (L : ℤ) - 52
      · have hL : L = 52 := by omega
        have htn0 : ((L : ℤ) - 52).toNat = 0 := by omega
        rw [if_pos hg0, htn0]
        have h52 : 52 - L = 0 := by omega
        rw [h52]
        norm_num
      · have htnj : ((-((L : ℤ) - 52)).toNat) = 52 - L := by omega
        rw [if_neg hg0, htnj]
        exact Nat.mul_div_cancel _ (Nat.pos_pow_of_pos _ (by omega))
    have hsmall : ¬ 9223372036854775808 ≤ n := by
      have h2 : (2:Nat) ^ 53 ≤ 9223372036854775808 := by norm_num
      omega
    unfold intOfDecimal
    rw [if_neg h0, hg, hm, htr, if_neg hbig, if_neg hsmall]

/-- C6 amended: the unicode branch agrees with the ASCII substitution only
under side conditions.  If the `×` line is handled by the unicode branch
(the ASCII patterns do not match it), the `x`-substituted line is matched
by the decimal-quantity pattern **with the same capture groups**, the
quantity token is all digits with value below `2^53` (so the `float64`
route of the decimal branch is exact and agrees with `Atoi`), the resolved
name survives the three-keyword filter, and name resolution agrees across
the two corpora, then both lines produce the same receipt — in particular
the same appended item.  Without these conditions the branches genuinely
differ (see the counterexample, and the divergence of
`int(ParseFloat(...))` from `Atoi` at 16-digit quantities). -/
theorem C6_amended_conditional_equivalence (cats : List (String × List String))
    (texts texts' : List String) (line : String) (r : Receipt) (caps : Caps)
    (h1 : find unicodeItemRE line.data = some caps)
    (h4 : find itemRE line.data = none)
    (h2 : find itemRE (subX line).data = some caps)
    (h3 : (caps.getD 0 []).all isDigitGo = true)
    (hlt : digitsToNat (caps.getD 0 []) < 2 ^ 53)
    (h5 : nameIsTotalish3 (lookupName texts line) = false)
    (h6 : lookupName texts' (subX line) = lookupName texts line) :
    stepItems cats texts' (subX line) r = stepItems cats texts line r := by
  have hsimple : find simpleItemRE line.data = none := by
    cases hs : find simpleItemRE line.data with
    | none => rfl
    | some c => exact absurd h4 (simple_sub_item line.data (by rw [hs]; simp))
  have h5two : nameIsTotalish2 (lookupName texts line) = false := by
    unfold nameIsTotalish3 at h5
    exact (Bool.or_eq_false_iff.mp h5).1
  unfold stepItems
  rw [h1, h4, hsimple, h2, h6]
  dsimp only
  by_cases hp : priceInRange (parseCents (commaToDot (caps.getD 2 []))) = true
  · rw [if_pos hp, if_pos hp]
    rw [if_neg (by rw [h5two]; simp), if_neg (by rw [h5]; simp)]
    rw [commaToDot_of_digits _ h3, intOfParseFloat_digits _ h3 hlt, atoiSat_of_small _ hlt]
  · rw [if_neg hp, if_neg hp]

/-- C6 amended witness: the spec's own example satisfies all side
conditions, so `["Bread", "2 ×2,49 4,98C"]` and the `x` form append the
same item. -/
theorem C6_amended_conditional_equivalence_witness :
    stepItems canonicalCats ["Bread", "2 x2,49 4,98C"] (subX "2 ×2,49 4,98C")
        (initReceipt ["Bread", "2 ×2,49 4,98C"]) =
      stepItems canonicalCats ["Bread", "2 ×2,49 4,98C"] "2 ×2,49 4,98C"
        (initReceipt ["Bread", "2 ×2,49 4,98C"]) :=
  C6_amended_conditional_equivalence canonicalCats ["Bread", "2 ×2,49 4,98C"]
    ["Bread", "2 x2,49 4,98C"] "2 ×2,49 4,98C" (initReceipt ["Bread", "2 ×2,49 4,98C"])
    ["2".data, "2,49".data, "4,98".data]
    (by decide) (by decide) (by decide) (by decide) (by decide) (by decide) (by decide)

end ReceiptOCR
